import Mathlib

/-!
Shallow embedding of `src/ms_funcs.cc` (dada2ms) and verification of the
specification's claims about it.

Modelling conventions:
* `double` values are modelled as `ℚ` where the code only moves them around
  (gains, epochs, antenna coordinates) and as `ℝ` where real trigonometry is
  involved (`seaLevel`, `itrfAnts`).
* casacore arrays are modelled as Lean lists in element-traversal order; a
  `Matrix<Double>(3, n)` of column vectors becomes a `List` of triples.
* C++ functions that mutate caller-owned vectors and may throw are modelled as
  functions returning the error (if any) together with the final state of the
  mutated vectors, so that partial mutation before a throw stays observable.
* External casacore services (`Rot3D`, `MVPosition::getAngle`, the
  WGS84→ITRF conversion machine, the `Time` constructor) are taken as
  parameters: the code under verification only composes them.
-/

namespace MsFuncs

/-- The two exception kinds thrown by `ms_funcs.cc`
(`std::runtime_error` and `std::length_error`), with their messages. -/
inductive MsError where
  | runtimeError (msg : String)
  | lengthError (msg : String)
  deriving DecidableEq, Repr

/-! ## Flag repacking: `boolArray2charVector` / `charVector2boolArray`
(`src/ms_funcs.cc` lines 418–436).

A casacore `Array<Bool>` is modelled as a `List Bool` in iterator order and a
`std::vector<char>` as a `List Nat` of byte values. `static_cast<char>(Bool)`
yields 1 / 0; `static_cast<Bool>(char)` is the nonzero test. -/

/-- Model of `static_cast<char>` applied to a `Bool`. -/
def boolToChar (b : Bool) : Nat := if b then 1 else 0

/-- Model of `static_cast<Bool>` applied to a `char`. -/
def charToBool (c : Nat) : Bool := c != 0

/-- Embedding of `boolArray2charVector` (lines 418–426): the size check precedes the write
loop; on mismatch the destination byte vector is returned untouched together
with the thrown `std::length_error`. -/
def boolArray2charVector (boolArr : List Bool) (charVec : List Nat) :
    Option MsError × List Nat :=
  if boolArr.length ≠ charVec.length then
    (some (MsError.lengthError "array length mismatch in ms_funcs::boolArray2charVector()"),
     charVec)
  else
    (none, boolArr.map boolToChar)

/-- Embedding of `charVector2boolArray` (lines 428–436): same size check (and the same
copy-pasted message), then the element-wise cast back to `Bool`. -/
def charVector2boolArray (charVec : List Nat) (boolArr : List Bool) :
    Option MsError × List Bool :=
  if boolArr.length ≠ charVec.length then
    (some (MsError.lengthError "array length mismatch in ms_funcs::boolArray2charVector()"),
     boolArr)
  else
    (none, charVec.map charToBool)

/-! ## Claims C4, C5, C9, C10 -/

lemma boolArray2charVector_of_len {boolArr : List Bool} {charVec : List Nat}
    (h : boolArr.length = charVec.length) :
    boolArray2charVector boolArr charVec = (none, boolArr.map boolToChar) := by
  simp [boolArray2charVector, h]

lemma charVector2boolArray_of_len {charVec : List Nat} {boolArr : List Bool}
    (h : boolArr.length = charVec.length) :
    charVector2boolArray charVec boolArr = (none, charVec.map charToBool) := by
  simp [charVector2boolArray, h]

lemma charToBool_boolToChar (b : Bool) : charToBool (boolToChar b) = b := by
  cases b <;> rfl

/-- C4: for every boolean array `x` and byte buffer of matching element count
(and any destination boolean array of matching count for the inverse), the
round trip `charVector2boolArray (boolArray2charVector x)` succeeds and
returns exactly `x`: size, order and every element value are preserved. -/
theorem boolChar_roundTrip (x : List Bool) (buf : List Nat) (dest : List Bool)
    (hb : buf.length = x.length) (hd : dest.length = x.length) :
    (boolArray2charVector x buf).1 = none ∧
    (charVector2boolArray (boolArray2charVector x buf).2 dest).1 = none ∧
    (charVector2boolArray (boolArray2charVector x buf).2 dest).2 = x := by
  rw [boolArray2charVector_of_len hb.symm]
  have h2 : charVector2boolArray (x.map boolToChar) dest =
      (none, (x.map boolToChar).map charToBool) :=
    charVector2boolArray_of_len (by simp [hd])
  rw [h2]
  refine ⟨rfl, rfl, ?_⟩
  rw [List.map_map]
  apply List.map_id''
  intro b
  exact charToBool_boolToChar b

/-- Witness for `boolChar_roundTrip` at a concrete input. -/
theorem boolChar_roundTrip_witness :
    ([0, 0, 0].length = [true, false, true].length ∧
     [false, false, false].length = [true, false, true].length) ∧
    ((boolArray2charVector [true, false, true] [0, 0, 0]).1 = none ∧
     (charVector2boolArray (boolArray2charVector [true, false, true] [0, 0, 0]).2
        [false, false, false]).1 = none ∧
     (charVector2boolArray (boolArray2charVector [true, false, true] [0, 0, 0]).2
        [false, false, false]).2 = [true, false, true]) :=
  ⟨⟨by decide, by decide⟩,
   boolChar_roundTrip [true, false, true] [0, 0, 0] [false, false, false]
     (by decide) (by decide)⟩

/-- C5: both repacking functions fail with the `std::length_error` exactly when
the boolean-array element count differs from the byte-buffer size, leaving the
destination untouched, and succeed (producing an output of the source's
length, so no silent truncation or extension) exactly when the sizes match. -/
theorem boolChar_sizeCheck (b : List Bool) (c : List Nat) :
    (b.length = c.length →
      boolArray2charVector b c = (none, b.map boolToChar) ∧
      charVector2boolArray c b = (none, c.map charToBool) ∧
      (b.map boolToChar).length = b.length ∧
      (c.map charToBool).length = c.length) ∧
    (b.length ≠ c.length →
      boolArray2charVector b c =
        (some (MsError.lengthError "array length mismatch in ms_funcs::boolArray2charVector()"), c) ∧
      charVector2boolArray c b =
        (some (MsError.lengthError "array length mismatch in ms_funcs::boolArray2charVector()"), b)) := by
  constructor
  · intro h
    refine ⟨?_, ?_, by simp, by simp⟩
    · simp [boolArray2charVector, h]
    · simp [charVector2boolArray, h]
  · intro h
    constructor
    · simp [boolArray2charVector, h]
    · simp [charVector2boolArray, h]

/-- Witness for `boolChar_sizeCheck`: the mismatch branch at a concrete pair of
differing sizes and the success branch at a matching pair. -/
theorem boolChar_sizeCheck_witness :
    (([true, false] : List Bool).length ≠ ([5] : List Nat).length ∧
      boolArray2charVector [true, false] [5] =
        (some (MsError.lengthError "array length mismatch in ms_funcs::boolArray2charVector()"), [5]) ∧
      charVector2boolArray [5] [true, false] =
        (some (MsError.lengthError "array length mismatch in ms_funcs::boolArray2charVector()"), [true, false])) ∧
    (([true, false] : List Bool).length = ([5, 0] : List Nat).length ∧
      boolArray2charVector [true, false] [5, 0] = (none, [1, 0])) :=
  ⟨⟨by decide, (boolChar_sizeCheck [true, false] [5]).2 (by decide)⟩,
   ⟨by decide, by
      have := ((boolChar_sizeCheck [true, false] [5, 0]).1 (by decide)).1
      simpa [boolToChar] using this⟩⟩

/-- C9: with matching sizes, `charVector2boolArray` decodes every nonzero byte
value (not only 1) as `true` and byte 0 as `false`; consequently it is a left
inverse of `boolArray2charVector`, while identifying all nonzero bytes. -/
theorem charVector2boolArray_nonzero (c : List Nat) (dest : List Bool)
    (h : dest.length = c.length) :
    (charVector2boolArray c dest).2 = c.map (fun v => decide (v ≠ 0)) ∧
    (∀ v : Nat, charToBool v = true ↔ v ≠ 0) ∧
    (∀ x : List Bool, x.length = c.length →
      (charVector2boolArray (boolArray2charVector x c).2 dest).2 = x) := by
  refine ⟨?_, ?_, ?_⟩
  · rw [charVector2boolArray_of_len h]
    apply List.map_congr_left
    intro v _
    cases v <;> simp [charToBool]
  · intro v
    simp [charToBool]
  · intro x hx
    rw [boolArray2charVector_of_len hx]
    rw [charVector2boolArray_of_len (by simp [h, hx] : dest.length = (x.map boolToChar).length)]
    rw [List.map_map]
    apply List.map_id''
    intro b
    exact charToBool_boolToChar b

/-- Witness for `charVector2boolArray_nonzero`: byte 2 (nonzero but not 1)
decodes to `true`. -/
theorem charVector2boolArray_nonzero_witness :
    ([false, false, false] : List Bool).length = ([2, 0, 7] : List Nat).length ∧
    (charVector2boolArray [2, 0, 7] [false, false, false]).2 =
      [2, 0, 7].map (fun v => decide (v ≠ 0)) :=
  ⟨by decide,
   (charVector2boolArray_nonzero [2, 0, 7] [false, false, false] (by decide)).1⟩

/-- C10: when either repacking function fails its size check, it throws before
writing any element: the destination vector (byte buffer respectively boolean
array) comes back completely unchanged. -/
theorem boolChar_noWriteOnError (b : List Bool) (c : List Nat)
    (h : b.length ≠ c.length) :
    (boolArray2charVector b c).2 = c ∧ (charVector2boolArray c b).2 = b := by
  constructor
  · simp [boolArray2charVector, h]
  · simp [charVector2boolArray, h]

/-- Witness for `boolChar_noWriteOnError` at a concrete mismatched pair. -/
theorem boolChar_noWriteOnError_witness :
    ([true] : List Bool).length ≠ ([9, 9] : List Nat).length ∧
    ((boolArray2charVector [true] [9, 9]).2 = [9, 9] ∧
     (charVector2boolArray [9, 9] [true]).2 = [true]) :=
  ⟨by decide, boolChar_noWriteOnError [true] [9, 9] (by decide)⟩

/-! ## Baseline enumeration: `zenithUVWs` (`src/ms_funcs.cc` lines 84–99)

Antenna positions (`Matrix<Double>(3, nAnt)` columns) are triples of `ℚ`;
the output matrix `uvw(3, (nAnt+1)*nAnt/2)` is the list of its columns in the
order the counter `c` fills them. -/

/-- A 3-vector column of a casacore `Matrix<Double>(3, ·)`. -/
abbrev Q3 := ℚ × ℚ × ℚ

/-- The zero 3-vector (also used as out-of-range default for `getD`). -/
def z3 : Q3 := (0, 0, 0)

/-- The per-axis difference written into column `c` (lines 92–94). -/
def sub3 (p q : Q3) : Q3 := (p.1 - q.1, p.2.1 - q.2.1, p.2.2 - q.2.2)

/-- Embedding of `zenithUVWs`: nested loop `for i in [0,nAnt)`, `for j in [i,nAnt)`, with the
column counter `c` incremented once per inner iteration. -/
def zenithUVWs (antPos : List Q3) : List Q3 :=
  (List.range antPos.length).flatMap (fun i =>
    (List.range' i (antPos.length - i)).map
      (fun j => sub3 (antPos.getD i z3) (antPos.getD j z3)))

/-- Flat column index at which the loop writes baseline `(i, j)`:
rows `0..i-1` contribute `n - t` columns each, then `j - i` within row `i`. -/
def blIndex (n i j : Nat) : Nat := i * (2 * n + 1 - i) / 2 + (j - i)

/-- Sum of the row lengths of rows `m..i-1` (each row `t` has `n - t` entries). -/
def rowOff (n m i : Nat) : Nat := ((List.range' m (i - m)).map (fun t => n - t)).sum

lemma rowOff_self (n m : Nat) : rowOff n m m = 0 := by simp [rowOff]

lemma rowOff_step (n : Nat) {m i : Nat} (h : m < i) :
    rowOff n m i = (n - m) + rowOff n (m + 1) i := by
  unfold rowOff
  have h1 : i - m = (i - (m + 1)) + 1 := by omega
  rw [h1, List.range'_succ]
  simp

lemma rowOff_zero_closed (n : Nat) : ∀ i, i ≤ n → 2 * rowOff n 0 i = i * (2 * n + 1 - i) := by
  intro i
  induction i with
  | zero => intro _; simp [rowOff_self]
  | succ i ih =>
    intro h
    have hstep : rowOff n 0 (i + 1) = rowOff n 0 i + (n - i) := by
      unfold rowOff
      rw [Nat.sub_zero, Nat.sub_zero, ← List.range_eq_range', ← List.range_eq_range',
        List.range_succ]
      simp
    have h1 : 2 * n + 1 - i = i + 2 * (n - i) + 1 := by omega
    have h2 : 2 * n + 1 - (i + 1) = i + 2 * (n - i) := by omega
    rw [hstep, Nat.mul_add, ih (by omega), h1, h2]
    generalize n - i = a
    ring

lemma blIndex_eq_rowOff (n i j : Nat) (h : i ≤ n) :
    blIndex n i j = rowOff n 0 i + (j - i) := by
  have h2 := rowOff_zero_closed n i h
  unfold blIndex
  generalize hM : i * (2 * n + 1 - i) = M at h2 ⊢
  omega

lemma flatMap_rows_length {α : Type} (f : Nat → List α) (n : Nat)
    (hlen : ∀ t, (f t).length = n - t) :
    ∀ k m, m + k = n → 2 * ((List.range' m k).flatMap f).length = k * (k + 1) := by
  intro k
  induction k with
  | zero => intro m _; simp
  | succ k ih =>
    intro m hm
    rw [List.range'_succ]
    simp only [List.flatMap_cons, List.length_append, hlen m]
    have hnm : n - m = k + 1 := by omega
    have hr := ih (m + 1) (by omega)
    calc 2 * ((n - m) + ((List.range' (m + 1) k).flatMap f).length)
        = 2 * (n - m) + 2 * ((List.range' (m + 1) k).flatMap f).length := by ring
      _ = 2 * (k + 1) + k * (k + 1) := by rw [hnm, hr]
      _ = (k + 1) * (k + 2) := by ring

lemma flatMap_rows_getD {α : Type} (f : Nat → List α) (n : Nat) (d : α)
    (hlen : ∀ t, (f t).length = n - t) :
    ∀ k m i j, m + k = n → m ≤ i → i ≤ j → j < n →
      ((List.range' m k).flatMap f).getD (rowOff n m i + (j - i)) d =
        (f i).getD (j - i) d := by
  intro k
  induction k with
  | zero => intro m i j hm h1 h2 h3; omega
  | succ k ih =>
    intro m i j hm h1 h2 h3
    rw [List.range'_succ]
    simp only [List.flatMap_cons]
    rcases Nat.eq_or_lt_of_le h1 with he | hlt
    · subst he
      rw [rowOff_self, Nat.zero_add]
      have hj : j - m < (f m).length := by rw [hlen m]; omega
      rw [List.getD_append _ _ _ _ hj]
    · rw [rowOff_step n hlt]
      have hge : (f m).length ≤ (n - m) + rowOff n (m + 1) i + (j - i) := by
        rw [hlen m]; omega
      rw [List.getD_append_right _ _ _ _ hge]
      have hsub : (n - m) + rowOff n (m + 1) i + (j - i) - (f m).length =
          rowOff n (m + 1) i + (j - i) := by
        rw [hlen m]; omega
      rw [hsub]
      exact ih (m + 1) i j (by omega) hlt h2 h3

/-- C2: for every list of antenna positions, `zenithUVWs` returns exactly
`N(N+1)/2` baselines; in the emission order (`i` outer ascending, `j` inner
ascending from `i`) the baseline at flat index `blIndex N i j` is the per-axis
difference `position(i) - position(j)`; every `(i, i)` baseline is the zero
vector; and `N = 0` yields the empty sequence. -/
theorem zenithUVWs_spec (antPos : List Q3) :
    (zenithUVWs antPos).length = antPos.length * (antPos.length + 1) / 2 ∧
    (∀ i j, i ≤ j → j < antPos.length →
      (zenithUVWs antPos).getD (blIndex antPos.length i j) z3 =
        ((antPos.getD i z3).1 - (antPos.getD j z3).1,
         (antPos.getD i z3).2.1 - (antPos.getD j z3).2.1,
         (antPos.getD i z3).2.2 - (antPos.getD j z3).2.2)) ∧
    (∀ i, i < antPos.length →
      (zenithUVWs antPos).getD (blIndex antPos.length i i) z3 = z3) ∧
    zenithUVWs ([] : List Q3) = [] := by
  set n := antPos.length with hn
  set f : Nat → List Q3 := fun i =>
    (List.range' i (n - i)).map (fun j => sub3 (antPos.getD i z3) (antPos.getD j z3))
    with hf
  have hzen : zenithUVWs antPos = (List.range' 0 n).flatMap f := by
    rw [zenithUVWs, List.range_eq_range']
  have hlen : ∀ t, (f t).length = n - t := by
    intro t
    simp [hf]
  have helem : ∀ i j, i ≤ j → j < n →
      (zenithUVWs antPos).getD (blIndex n i j) z3 =
        sub3 (antPos.getD i z3) (antPos.getD j z3) := by
    intro i j h1 h2
    rw [hzen, blIndex_eq_rowOff n i j (by omega),
      flatMap_rows_getD f n z3 hlen n 0 i j (by omega) (Nat.zero_le i) h1 h2]
    have hji : j - i < (f i).length := by rw [hlen i]; omega
    rw [List.getD_eq_getElem _ _ hji]
    simp only [hf, List.getElem_map, List.getElem_range']
    have hidx : i + 1 * (j - i) = j := by omega
    rw [hidx]
  refine ⟨?_, ?_, ?_, rfl⟩
  · have h2 := flatMap_rows_length f n hlen n 0 (by omega)
    rw [← hzen] at h2
    generalize hM : n * (n + 1) = M at h2 ⊢
    omega
  · intro i j h1 h2
    rw [helem i j h1 h2]
    rfl
  · intro i hi
    rw [helem i i (Nat.le_refl i) hi]
    simp [sub3, z3]

/-- Witness for `zenithUVWs_spec`: two concrete antennas, baseline `(0, 1)`. -/
theorem zenithUVWs_spec_witness :
    ((0 : Nat) ≤ 1 ∧ 1 < ([(1, 2, 3), (10, 20, 30)] : List Q3).length) ∧
    (zenithUVWs [(1, 2, 3), (10, 20, 30)]).getD
        (blIndex ([(1, 2, 3), (10, 20, 30)] : List Q3).length 0 1) z3 =
      ((([(1, 2, 3), (10, 20, 30)] : List Q3).getD 0 z3).1 -
         (([(1, 2, 3), (10, 20, 30)] : List Q3).getD 1 z3).1,
       (([(1, 2, 3), (10, 20, 30)] : List Q3).getD 0 z3).2.1 -
         (([(1, 2, 3), (10, 20, 30)] : List Q3).getD 1 z3).2.1,
       (([(1, 2, 3), (10, 20, 30)] : List Q3).getD 0 z3).2.2 -
         (([(1, 2, 3), (10, 20, 30)] : List Q3).getD 1 z3).2.2) :=
  ⟨⟨by decide, by decide⟩,
   (zenithUVWs_spec [(1, 2, 3), (10, 20, 30)]).2.1 0 1 (by decide) (by decide)⟩

/-! ## Calibration ingestion: `readCalTable` (`src/ms_funcs.cc` lines 438–461)

The external calibration store is a record of the data `readCalTable` pulls
from it: row count, the shape of gain cell 0 (`gain_col.shape(0)`), the
`CPARAM` and `FLAG` columns in element order, and the `ANTENNA1` scalar
column.  `readCalTable` mutates the caller's `gain` and `flag` vectors and may
throw, so it returns the error (if any) together with the final state of both
vectors. -/

/-- A calibration table as seen through the casacore accessors used by
`readCalTable`. -/
structure CalTable where
  nrow : Nat
  cellShape : List Nat
  gainColumn : List (ℚ × ℚ)
  flagColumn : List Bool
  antenna1 : Nat → Int

/-- Model of `std::vector::resize`: truncate to `n` or extend with value-initialized
elements `d`. -/
def listResize {α : Type} (l : List α) (n : Nat) (d : α) : List α :=
  l.take n ++ List.replicate (n - l.length) d

lemma listResize_length {α : Type} (l : List α) (n : Nat) (d : α) :
    (listResize l n d).length = n := by
  simp [listResize]
  omega

/-- Embedding of `readCalTable`: resize `gain` and `flag` to `cellShape.prod * nrow`, read
the gain column (a conformance failure in `getColumn` throws with the vectors
already resized), repack the flag column through `boolArray2charVector`, and
only then check `ANTENNA1(i) == i` for every row, throwing the
`std::length_error` on the first mismatch. -/
def readCalTable (cal : CalTable) (gain : List (ℚ × ℚ)) (flag : List Nat) :
    Option MsError × List (ℚ × ℚ) × List Nat :=
  let numGains := cal.cellShape.prod * cal.nrow
  let gain1 := listResize gain numGains (0, 0)
  let flag1 := listResize flag numGains 0
  if cal.gainColumn.length ≠ numGains then
    (some (MsError.lengthError "ArrayColumn::getColumn shape conformance error"), gain1, flag1)
  else
    match boolArray2charVector cal.flagColumn flag1 with
    | (some e, flag2) => (some e, cal.gainColumn, flag2)
    | (none, flag2) =>
      if (List.range cal.nrow).all (fun i => cal.antenna1 i == (i : Int)) then
        (none, cal.gainColumn, flag2)
      else
        (some (MsError.lengthError "Cal table not expected shape (one row per ant)"),
         cal.gainColumn, flag2)

/-- A 1-row table whose `ANTENNA1` entry is 1 instead of 0. -/
def calBad : CalTable :=
  { nrow := 1
    cellShape := [1]
    gainColumn := [(1, 0)]
    flagColumn := [true]
    antenna1 := fun _ => 1 }

/-! ## Claim C1 -/

/-- C1 counterexample: on `calBad` (row 0 carries antenna index 1) the
structural error is thrown, but the caller's `gain` and `flag` vectors — both
empty before the call — come back resized and filled with the table's data,
so the read is *not* "as if it never started". -/
theorem readCalTable_counterexample :
    (∃ r, r < calBad.nrow ∧ calBad.antenna1 r ≠ (r : Int)) ∧
    (readCalTable calBad [] []).1 =
      some (MsError.lengthError "Cal table not expected shape (one row per ant)") ∧
    (readCalTable calBad [] []).2.1 ≠ [] ∧
    (readCalTable calBad [] []).2.2 ≠ [] :=
  ⟨⟨0, by decide, by decide⟩, by decide, by decide, by decide⟩

/-- C1 amended: if some row `r` of the calibration table has
`ANTENNA1(r) ≠ r` (and the column data itself is well-shaped), `readCalTable`
raises the structural `std::length_error` — but only after the caller-visible
`gain` and `flag` vectors have been resized and overwritten with the table's
gain column and repacked flag column; nothing is rolled back. -/
theorem readCalTable_amended (cal : CalTable) (gain : List (ℚ × ℚ)) (flag : List Nat)
    (hg : cal.gainColumn.length = cal.cellShape.prod * cal.nrow)
    (hf : cal.flagColumn.length = cal.cellShape.prod * cal.nrow)
    (hr : ∃ r, r < cal.nrow ∧ cal.antenna1 r ≠ (r : Int)) :
    readCalTable cal gain flag =
      (some (MsError.lengthError "Cal table not expected shape (one row per ant)"),
       cal.gainColumn, cal.flagColumn.map boolToChar) := by
  obtain ⟨r, hrlt, hrne⟩ := hr
  have hpack : boolArray2charVector cal.flagColumn
      (listResize flag (cal.cellShape.prod * cal.nrow) 0) =
      (none, cal.flagColumn.map boolToChar) :=
    boolArray2charVector_of_len (by rw [hf, listResize_length])
  have hall : ¬ ((List.range cal.nrow).all
      (fun i => cal.antenna1 i == (i : Int)) = true) := by
    rw [List.all_eq_true]
    intro hforall
    have := hforall r (List.mem_range.mpr hrlt)
    exact hrne (by simpa using this)
  rw [readCalTable]
  simp only [if_neg (by omega : ¬ cal.gainColumn.length ≠ cal.cellShape.prod * cal.nrow)]
  rw [hpack]
  simp only [if_neg hall]

/-- Witness for `readCalTable_amended` at the concrete table `calBad`. -/
theorem readCalTable_amended_witness :
    (calBad.gainColumn.length = calBad.cellShape.prod * calBad.nrow ∧
     calBad.flagColumn.length = calBad.cellShape.prod * calBad.nrow ∧
     (∃ r, r < calBad.nrow ∧ calBad.antenna1 r ≠ (r : Int))) ∧
    readCalTable calBad [] [] =
      (some (MsError.lengthError "Cal table not expected shape (one row per ant)"),
       calBad.gainColumn, calBad.flagColumn.map boolToChar) :=
  ⟨⟨by decide, by decide, ⟨0, by decide, by decide⟩⟩,
   readCalTable_amended calBad [] [] (by decide) (by decide) ⟨0, by decide, by decide⟩⟩

/-! ## Geodetic frame: `radians`, `seaLevel` (`src/ms_funcs.cc` lines 49–67) -/

/-- Embedding of `radians` (lines 49–53): degrees to radians. -/
noncomputable def radians (degrees : ℝ) : ℝ := degrees * Real.pi / 180

/-- C `hypot`. -/
noncomputable def hypot (x y : ℝ) : ℝ := Real.sqrt (x ^ 2 + y ^ 2)

/-- WGS84 equatorial radius (`majorAxis`, line 60). -/
noncomputable def majorAxis : ℝ := 6378137.0

/-- WGS84 polar radius (`minorAxis`, line 61). -/
noncomputable def minorAxis : ℝ := 6356752.3142

/-- Embedding of `seaLevel` (lines 57–67): distance from the Earth's centre to the WGS84
ellipsoid at the given geodetic latitude (degrees). -/
noncomputable def seaLevel (latitude : ℝ) : ℝ :=
  hypot (majorAxis * Real.cos (radians latitude)) (minorAxis * Real.sin (radians latitude))

/-! ## Claim C8 -/

/-- C8: `seaLevel` is `hypot(a·cos φ, b·sin φ)` with `a` the WGS84 equatorial
radius 6378137.0 and `b` the polar radius 6356752.3142; for every latitude in
[-90, 90] degrees it lies between the polar and the equatorial radius;
`seaLevel 0` is the equatorial radius and `seaLevel (±90)` the polar radius. -/
theorem seaLevel_spec (φ : ℝ) (h1 : -90 ≤ φ) (h2 : φ ≤ 90) :
    seaLevel φ =
      hypot (6378137.0 * Real.cos (radians φ)) (6356752.3142 * Real.sin (radians φ)) ∧
    minorAxis ≤ seaLevel φ ∧ seaLevel φ ≤ majorAxis ∧
    seaLevel 0 = majorAxis ∧ seaLevel 90 = minorAxis ∧ seaLevel (-90) = minorAxis := by
  have hb0 : (0:ℝ) < minorAxis := by rw [minorAxis]; norm_num
  have hba : minorAxis ≤ majorAxis := by rw [minorAxis, majorAxis]; norm_num
  have ha0 : (0:ℝ) < majorAxis := hb0.trans_le hba
  have hbounds : ∀ ψ : ℝ, minorAxis ≤ seaLevel ψ ∧ seaLevel ψ ≤ majorAxis := by
    intro ψ
    have hpyth := Real.sin_sq_add_cos_sq (radians ψ)
    have hc2 : Real.cos (radians ψ) ^ 2 ≤ 1 := by
      nlinarith [sq_nonneg (Real.sin (radians ψ))]
    have hdiff : 0 ≤ majorAxis ^ 2 - minorAxis ^ 2 := by nlinarith
    have e1 : (majorAxis * Real.cos (radians ψ)) ^ 2 +
        (minorAxis * Real.sin (radians ψ)) ^ 2 =
        minorAxis ^ 2 + (majorAxis ^ 2 - minorAxis ^ 2) * Real.cos (radians ψ) ^ 2 := by
      have hs : Real.sin (radians ψ) ^ 2 = 1 - Real.cos (radians ψ) ^ 2 := by linarith
      rw [mul_pow, mul_pow, hs]
      ring
    have low : minorAxis ^ 2 ≤ (majorAxis * Real.cos (radians ψ)) ^ 2 +
        (minorAxis * Real.sin (radians ψ)) ^ 2 := by
      rw [e1]
      nlinarith [mul_nonneg hdiff (sq_nonneg (Real.cos (radians ψ)))]
    have high : (majorAxis * Real.cos (radians ψ)) ^ 2 +
        (minorAxis * Real.sin (radians ψ)) ^ 2 ≤ majorAxis ^ 2 := by
      rw [e1]
      nlinarith [mul_le_mul_of_nonneg_left hc2 hdiff]
    have hgoal : seaLevel ψ = Real.sqrt ((majorAxis * Real.cos (radians ψ)) ^ 2 +
        (minorAxis * Real.sin (radians ψ)) ^ 2) := by rw [seaLevel, hypot]
    constructor
    · rw [hgoal]
      have := Real.sqrt_le_sqrt low
      rwa [Real.sqrt_sq hb0.le] at this
    · rw [hgoal]
      have := Real.sqrt_le_sqrt high
      rwa [Real.sqrt_sq ha0.le] at this
  have hzero : seaLevel 0 = majorAxis := by
    have h0 : radians 0 = 0 := by rw [radians]; ring
    rw [seaLevel, h0, Real.cos_zero, Real.sin_zero, hypot]
    rw [show (majorAxis * 1) ^ 2 + (minorAxis * 0) ^ 2 = majorAxis ^ 2 by ring]
    exact Real.sqrt_sq ha0.le
  have h90 : radians 90 = Real.pi / 2 := by rw [radians]; ring
  have hm90 : radians (-90) = -(Real.pi / 2) := by rw [radians]; ring
  have hpos : seaLevel 90 = minorAxis := by
    rw [seaLevel, h90, Real.cos_pi_div_two, Real.sin_pi_div_two, hypot]
    rw [show (majorAxis * 0) ^ 2 + (minorAxis * 1) ^ 2 = minorAxis ^ 2 by ring]
    exact Real.sqrt_sq hb0.le
  have hneg : seaLevel (-90) = minorAxis := by
    rw [seaLevel, hm90, Real.cos_neg, Real.sin_neg, Real.cos_pi_div_two,
      Real.sin_pi_div_two, hypot]
    rw [show (majorAxis * 0) ^ 2 + (minorAxis * -1) ^ 2 = minorAxis ^ 2 by ring]
    exact Real.sqrt_sq hb0.le
  refine ⟨?_, (hbounds φ).1, (hbounds φ).2, hzero, hpos, hneg⟩
  rw [seaLevel, majorAxis, minorAxis]

/-- Witness for `seaLevel_spec` at latitude 0. -/
theorem seaLevel_spec_witness :
    (-90 ≤ (0:ℝ) ∧ (0:ℝ) ≤ 90) ∧
    (minorAxis ≤ seaLevel 0 ∧ seaLevel 0 ≤ majorAxis) :=
  ⟨⟨by norm_num, by norm_num⟩,
   ⟨(seaLevel_spec 0 (by norm_num) (by norm_num)).2.1,
    (seaLevel_spec 0 (by norm_num) (by norm_num)).2.2.1⟩⟩

/-! ## Array geometry: `itrfAnts` (`src/ms_funcs.cc` lines 106–140)

Antenna offsets are (East, North, Up) triples of `ℝ`.  The casacore services
the loop composes — the rotation-matrix factory `Rot3D` (as the action of the
matrix on a vector), `MVPosition::getAngle`, and the `MPosition::Convert`
WGS84→ITRF machine — are external collaborators and appear as parameters.
`MVPosition::getLength("m")` is the Euclidean norm and is modelled
concretely. -/

/-- A 3-vector of reals. -/
abbrev R3 := ℝ × ℝ × ℝ

/-- Model of `MVPosition::getLength("m")`: Euclidean length of a Cartesian 3-vector. -/
noncomputable def vecLength (v : R3) : ℝ := Real.sqrt (v.1 ^ 2 + v.2.1 ^ 2 + v.2.2 ^ 2)

/-- What line 132 hands to the external WGS84→ITRF converter: an `MPosition`
built from a length (ellipsoidal height datum) and the two angles of the
rotated vector. -/
structure WGSPosition where
  len : ℝ
  angle : ℝ × ℝ

/-- Embedding of `itrfAnts` (lines 106–140).  `rot3D axis angle` is casacore `Rot3D` as a
linear action, `getAngle` is `MVPosition::getAngle`, and `wgs2itrf` the
conversion machine built on line 117.  Per antenna: map (E, N, Up) to the
frame (X, Y, Z) = (Up, E, N), add `seaLevel(latitude) + altitude` to the X
(radial) component, rotate by `Rot3D(1, -radians(latitude))` and then
`Rot3D(2, radians(longitude))`, subtract the same sea level from the rotated
vector's length, and convert. -/
noncomputable def itrfAnts (rot3D : Nat → ℝ → (R3 → R3)) (getAngle : R3 → ℝ × ℝ)
    (wgs2itrf : WGSPosition → R3) (antPos : List R3)
    (longitude latitude altitude : ℝ) : List R3 :=
  let rLat := rot3D 1 (-(radians latitude))
  let rLon := rot3D 2 (radians longitude)
  let seaLev := seaLevel latitude
  antPos.map (fun p =>
    let currPos : R3 := (p.2.2 + (seaLev + altitude), p.1, p.2.1)
    let rotPos := rLon (rLat currPos)
    wgs2itrf ⟨vecLength rotPos - seaLev, getAngle rotPos⟩)

/-! ## Claim C3 -/

/-- C3: `itrfAnts` yields exactly one output per input antenna, in input
order, and the `i`-th output is obtained by adding
`seaLevel(latitude) + altitude` to the Up component (mapped onto the radial
axis), rotating first about the latitude axis (axis 1) by `-radians(latitude)`
and then about the pole axis (axis 2) by `+radians(longitude)`, and handing
the rotated vector — with the same sea-level radius subtracted from its
length — to the external WGS84→ITRF converter. -/
theorem itrfAnts_spec (rot3D : Nat → ℝ → (R3 → R3)) (getAngle : R3 → ℝ × ℝ)
    (wgs2itrf : WGSPosition → R3) (antPos : List R3)
    (longitude latitude altitude : ℝ) :
    (itrfAnts rot3D getAngle wgs2itrf antPos longitude latitude altitude).length =
      antPos.length ∧
    (∀ i, i < antPos.length → ∀ d : R3,
      (itrfAnts rot3D getAngle wgs2itrf antPos longitude latitude altitude).getD i
          (wgs2itrf ⟨vecLength d - seaLevel latitude, getAngle d⟩) =
        wgs2itrf
          ⟨vecLength
              (rot3D 2 (radians longitude)
                (rot3D 1 (-(radians latitude))
                  ((antPos.getD i (0, 0, 0)).2.2 + (seaLevel latitude + altitude),
                   (antPos.getD i (0, 0, 0)).1,
                   (antPos.getD i (0, 0, 0)).2.1))) - seaLevel latitude,
           getAngle
              (rot3D 2 (radians longitude)
                (rot3D 1 (-(radians latitude))
                  ((antPos.getD i (0, 0, 0)).2.2 + (seaLevel latitude + altitude),
                   (antPos.getD i (0, 0, 0)).1,
                   (antPos.getD i (0, 0, 0)).2.1)))⟩) := by
  constructor
  · simp [itrfAnts]
  · intro i hi d
    have hlen : i < (itrfAnts rot3D getAngle wgs2itrf antPos longitude latitude altitude).length := by
      simpa [itrfAnts] using hi
    rw [List.getD_eq_getElem _ _ hlen]
    simp only [itrfAnts, List.getElem_map]
    rw [List.getD_eq_getElem _ _ hi]

/-- Witness for `itrfAnts_spec`: identity rotations, a trivial angle
extractor and converter, one antenna at the origin. -/
theorem itrfAnts_spec_witness :
    ((0 : Nat) < ([((0:ℝ), (0:ℝ), (0:ℝ))] : List R3).length) ∧
    (itrfAnts (fun _ _ v => v) (fun _ => (0, 0)) (fun w => (w.len, 0, 0))
        [((0:ℝ), (0:ℝ), (0:ℝ))] 0 0 0).getD 0
        ((fun w : WGSPosition => (w.len, (0:ℝ), (0:ℝ)))
          ⟨vecLength (0, 0, 0) - seaLevel 0, (fun _ : R3 => ((0:ℝ), (0:ℝ))) (0, 0, 0)⟩) =
      (fun w : WGSPosition => (w.len, (0:ℝ), (0:ℝ)))
        ⟨vecLength
            ((fun _ _ v => v : Nat → ℝ → (R3 → R3)) 2 (radians 0)
              ((fun _ _ v => v : Nat → ℝ → (R3 → R3)) 1 (-(radians 0))
                ((([((0:ℝ), (0:ℝ), (0:ℝ))] : List R3).getD 0 (0, 0, 0)).2.2 +
                    (seaLevel 0 + 0),
                 (([((0:ℝ), (0:ℝ), (0:ℝ))] : List R3).getD 0 (0, 0, 0)).1,
                 (([((0:ℝ), (0:ℝ), (0:ℝ))] : List R3).getD 0 (0, 0, 0)).2.1))) -
            seaLevel 0,
         (fun _ : R3 => ((0:ℝ), (0:ℝ)))
            ((fun _ _ v => v : Nat → ℝ → (R3 → R3)) 2 (radians 0)
              ((fun _ _ v => v : Nat → ℝ → (R3 → R3)) 1 (-(radians 0))
                ((([((0:ℝ), (0:ℝ), (0:ℝ))] : List R3).getD 0 (0, 0, 0)).2.2 +
                    (seaLevel 0 + 0),
                 (([((0:ℝ), (0:ℝ), (0:ℝ))] : List R3).getD 0 (0, 0, 0)).1,
                 (([((0:ℝ), (0:ℝ), (0:ℝ))] : List R3).getD 0 (0, 0, 0)).2.1)))⟩ :=
  ⟨by simp,
   (itrfAnts_spec (fun _ _ v => v) (fun _ => (0, 0)) (fun w => (w.len, 0, 0))
      [((0:ℝ), (0:ℝ), (0:ℝ))] 0 0 0).2 0 (by simp) (0, 0, 0)⟩

/-! ## Epoch parsing: `str2MEpoch` (`src/ms_funcs.cc` lines 26–34)

`sscanf(time, "%d-%d-%d-%d:%d:%lf", ...)` is modelled by combinators over
`List Char` that follow the C standard's conversion rules: `%d` skips
whitespace, accepts an optional sign and a nonempty greedy digit run; a
literal format character must match the next input character exactly; `%lf`
skips whitespace, accepts an optional sign and a decimal significand (digits,
optionally a point and further digits, at least one digit in total) — the
exponent form, unused by every claim, is not modelled.  Trailing input after
the last conversion is ignored, exactly as `sscanf` ignores it.  Numeric
values are unbounded (`Int`/`ℚ`): C overflow behaviour is not modelled. -/

/-- C `isspace` (default locale). -/
def isWsChar (c : Char) : Bool :=
  c == ' ' || c == '\t' || c == '\n' || c == '\x0b' || c == '\x0c' || c == '\r'

/-- Skip leading whitespace, as `%d` / `%lf` do. -/
def dropWs (cs : List Char) : List Char := cs.dropWhile isWsChar

/-- Value of a digit run. -/
def digitsToNat (ds : List Char) : Nat :=
  ds.foldl (fun acc c => 10 * acc + (c.toNat - '0'.toNat)) 0

/-- A nonempty greedy digit run and the remaining input. -/
def scanDigits (cs : List Char) : Option (Nat × List Char) :=
  if (cs.takeWhile Char.isDigit).isEmpty then none
  else some (digitsToNat (cs.takeWhile Char.isDigit), cs.dropWhile Char.isDigit)

/-- scanf `%d`. -/
def scanInt (cs : List Char) : Option (Int × List Char) :=
  if (dropWs cs).head? = some '-' then
    (scanDigits (dropWs cs).tail).map (fun p => (-(p.1 : Int), p.2))
  else if (dropWs cs).head? = some '+' then
    (scanDigits (dropWs cs).tail).map (fun p => ((p.1 : Int), p.2))
  else
    (scanDigits (dropWs cs)).map (fun p => ((p.1 : Int), p.2))

/-- A literal non-whitespace character of the format string. -/
def scanLit (c : Char) (cs : List Char) : Option (List Char) :=
  match cs with
  | [] => none
  | x :: xs => if x = c then some xs else none

/-- Significand of `%lf` after sign handling: digits, optionally a decimal
point and further digits; at least one digit overall. -/
def scanFrac (sgn : ℚ) (t1 : List Char) : Option (ℚ × List Char) :=
  if (t1.dropWhile Char.isDigit).head? = some '.' then
    (if (t1.takeWhile Char.isDigit).isEmpty &&
        ((t1.dropWhile Char.isDigit).tail.takeWhile Char.isDigit).isEmpty then none
     else some (sgn * ((digitsToNat (t1.takeWhile Char.isDigit) : ℚ) +
          (digitsToNat ((t1.dropWhile Char.isDigit).tail.takeWhile Char.isDigit) : ℚ) /
            (10 : ℚ) ^ ((t1.dropWhile Char.isDigit).tail.takeWhile Char.isDigit).length),
        (t1.dropWhile Char.isDigit).tail.dropWhile Char.isDigit))
  else
    (if (t1.takeWhile Char.isDigit).isEmpty then none
     else some (sgn * (digitsToNat (t1.takeWhile Char.isDigit) : ℚ),
        t1.dropWhile Char.isDigit))

/-- scanf `%lf`. -/
def scanDouble (cs : List Char) : Option (ℚ × List Char) :=
  if (dropWs cs).head? = some '-' then scanFrac (-1) (dropWs cs).tail
  else if (dropWs cs).head? = some '+' then scanFrac 1 (dropWs cs).tail
  else scanFrac 1 (dropWs cs)

/-- The whole format `"%d-%d-%d-%d:%d:%lf"`; `some` exactly when `sscanf`
returns 6. -/
def scanTime (cs : List Char) : Option (Int × Int × Int × Int × Int × ℚ) := do
  let (yy, r1) ← scanInt cs
  let r2 ← scanLit '-' r1
  let (mo, r3) ← scanInt r2
  let r4 ← scanLit '-' r3
  let (dd, r5) ← scanInt r4
  let r6 ← scanLit '-' r5
  let (hh, r7) ← scanInt r6
  let r8 ← scanLit ':' r7
  let (mi, r9) ← scanInt r8
  let r10 ← scanLit ':' r9
  let (ss, _) ← scanDouble r10
  pure (yy, mo, dd, hh, mi, ss)

/-- Embedding of `str2MEpoch`.  `mkTime` stands for the external casacore
`Time(yy, MM, dd, hh, mm, ss)` constructor, viewed as the UTC instant in
seconds; per the code's contract the offset is added in seconds to that
instant (`Time(...) + offset`) before the `MVTime`/`MVEpoch`/`MEpoch`
wrappers, which do not change the instant. -/
def str2MEpoch (mkTime : Int → Int → Int → Int → Int → ℚ → ℚ)
    (time : String) (offset : ℚ) : Except MsError ℚ :=
  match scanTime time.data with
  | none => .error (.runtimeError "Invalid String enountered in str2MEpoch()")
  | some (yy, mo, dd, hh, mi, ss) => .ok (mkTime yy mo dd hh mi ss + offset)

/-- Modelled from the spec's words: a string conforming to the fixed
six-field numeric pattern `YYYY-MM-DD-HH:MM:SS.s` — four digits, dash, two
digits, dash, two digits, dash, two digits, colon, two digits, colon, two
digits, a decimal point and at least one fractional digit, nothing else. -/
def takeDigitsExact : Nat → List Char → Option (List Char)
  | 0, cs => some cs
  | _ + 1, [] => none
  | k + 1, c :: cs => if c.isDigit then takeDigitsExact k cs else none

/-- See `takeDigitsExact`: the spec-side strict pattern. -/
def specTimestamp (s : String) : Bool :=
  ((do
    let r1 ← takeDigitsExact 4 s.data
    let r2 ← scanLit '-' r1
    let r3 ← takeDigitsExact 2 r2
    let r4 ← scanLit '-' r3
    let r5 ← takeDigitsExact 2 r4
    let r6 ← scanLit '-' r5
    let r7 ← takeDigitsExact 2 r6
    let r8 ← scanLit ':' r7
    let r9 ← takeDigitsExact 2 r8
    let r10 ← scanLit ':' r9
    let r11 ← takeDigitsExact 2 r10
    let r12 ← scanLit '.' r11
    pure (!r12.isEmpty && r12.all Char.isDigit)) : Option Bool).getD false

/-! ### Scanner lemmas -/

lemma digit_ne {c c0 : Char} (hc : c.isDigit = true) (h0 : c0.isDigit = false) :
    c ≠ c0 := by
  intro he
  rw [he, h0] at hc
  simp at hc

lemma ws_false_of_digit {c : Char} (h : c.isDigit = true) : isWsChar c = false := by
  rw [isWsChar]
  have h1 : (c == ' ') = false := beq_eq_false_iff_ne.mpr (digit_ne h (by decide))
  have h2 : (c == '\t') = false := beq_eq_false_iff_ne.mpr (digit_ne h (by decide))
  have h3 : (c == '\n') = false := beq_eq_false_iff_ne.mpr (digit_ne h (by decide))
  have h4 : (c == '\x0b') = false := beq_eq_false_iff_ne.mpr (digit_ne h (by decide))
  have h5 : (c == '\x0c') = false := beq_eq_false_iff_ne.mpr (digit_ne h (by decide))
  have h6 : (c == '\r') = false := beq_eq_false_iff_ne.mpr (digit_ne h (by decide))
  rw [h1, h2, h3, h4, h5, h6]
  rfl

lemma dropWs_not_ws {c : Char} {cs : List Char} (h : isWsChar c = false) :
    dropWs (c :: cs) = c :: cs := by
  rw [dropWs, List.dropWhile_cons, h]
  simp

lemma span_digits {ds rest : List Char} (hds : ∀ c ∈ ds, c.isDigit = true)
    (hrest : ∀ c, rest.head? = some c → c.isDigit = false) :
    (ds ++ rest).takeWhile Char.isDigit = ds ∧
    (ds ++ rest).dropWhile Char.isDigit = rest := by
  induction ds with
  | nil =>
    simp only [List.nil_append]
    cases rest with
    | nil => simp
    | cons c cs =>
      have hc := hrest c rfl
      rw [List.takeWhile_cons, List.dropWhile_cons, hc]
      simp
  | cons d ds ih =>
    have hd : d.isDigit = true := hds d (List.mem_cons_self d ds)
    have ih' := ih (fun c hc => hds c (List.mem_cons_of_mem d hc))
    simp only [List.cons_append, List.takeWhile_cons, List.dropWhile_cons, hd, if_true]
    exact ⟨by rw [ih'.1], by rw [ih'.2]⟩

lemma scanInt_digits {ds rest : List Char} (hne : ds ≠ [])
    (hds : ∀ c ∈ ds, c.isDigit = true)
    (hrest : ∀ c, rest.head? = some c → c.isDigit = false) :
    scanInt (ds ++ rest) = some ((digitsToNat ds : Int), rest) := by
  obtain ⟨d, ds', rfl⟩ : ∃ d ds', ds = d :: ds' := by
    cases ds with
    | nil => exact absurd rfl hne
    | cons d ds' => exact ⟨d, ds', rfl⟩
  have hd : d.isDigit = true := hds d (List.mem_cons_self d ds')
  have hspan := span_digits hds hrest
  have hdws : dropWs ((d :: ds') ++ rest) = (d :: ds') ++ rest :=
    dropWs_not_ws (ws_false_of_digit hd)
  rw [scanInt, hdws]
  have hne1 : ¬ (((d :: ds') ++ rest).head? = some '-') := by
    rw [List.cons_append, List.head?_cons, Option.some.injEq]
    exact digit_ne hd (by decide)
  have hne2 : ¬ (((d :: ds') ++ rest).head? = some '+') := by
    rw [List.cons_append, List.head?_cons, Option.some.injEq]
    exact digit_ne hd (by decide)
  rw [if_neg hne1, if_neg hne2, scanDigits, hspan.1, hspan.2]
  rw [if_neg (by simp)]
  simp

lemma scanLit_cons (c : Char) (r : List Char) : scanLit c (c :: r) = some r := by
  simp [scanLit]

lemma scanDouble_digits {ip fp : List Char} (hne : ip ≠ [])
    (hip : ∀ c ∈ ip, c.isDigit = true) :
    ∃ v r, scanDouble (ip ++ '.' :: fp) = some (v, r) := by
  obtain ⟨d, ip', rfl⟩ : ∃ d ip', ip = d :: ip' := by
    cases ip with
    | nil => exact absurd rfl hne
    | cons d ip' => exact ⟨d, ip', rfl⟩
  have hd : d.isDigit = true := hip d (List.mem_cons_self d ip')
  have hdot : ∀ c, ('.' :: fp).head? = some c → c.isDigit = false := by
    intro c hc
    rw [List.head?_cons, Option.some.injEq] at hc
    rw [← hc]
    decide
  have hspan := span_digits hip hdot
  have hdws : dropWs ((d :: ip') ++ '.' :: fp) = (d :: ip') ++ '.' :: fp :=
    dropWs_not_ws (ws_false_of_digit hd)
  rw [scanDouble, hdws]
  have hne1 : ¬ (((d :: ip') ++ '.' :: fp).head? = some '-') := by
    rw [List.cons_append, List.head?_cons, Option.some.injEq]
    exact digit_ne hd (by decide)
  have hne2 : ¬ (((d :: ip') ++ '.' :: fp).head? = some '+') := by
    rw [List.cons_append, List.head?_cons, Option.some.injEq]
    exact digit_ne hd (by decide)
  rw [if_neg hne1, if_neg hne2, scanFrac, hspan.1, hspan.2]
  rw [if_pos (by rw [List.head?_cons])]
  rw [if_neg (by simp)]
  exact ⟨_, _, rfl⟩

lemma takeDigitsExact_some : ∀ {k : Nat} {cs r : List Char},
    takeDigitsExact k cs = some r →
    ∃ ds, cs = ds ++ r ∧ ds.length = k ∧ ∀ c ∈ ds, c.isDigit = true := by
  intro k
  induction k with
  | zero =>
    intro cs r h
    simp only [takeDigitsExact, Option.some.injEq] at h
    exact ⟨[], by simp [h], rfl, by simp⟩
  | succ k ih =>
    intro cs r h
    cases cs with
    | nil => simp [takeDigitsExact] at h
    | cons c cs' =>
      simp only [takeDigitsExact] at h
      by_cases hc : c.isDigit = true
      · rw [if_pos hc] at h
        obtain ⟨ds, h1, h2, h3⟩ := ih h
        refine ⟨c :: ds, by simp [h1], by simp [h2], ?_⟩
        intro x hx
        rcases List.mem_cons.mp hx with rfl | hx'
        · exact hc
        · exact h3 x hx'
      · rw [if_neg hc] at h
        simp at h

lemma scanLit_some {c : Char} {cs r : List Char} (h : scanLit c cs = some r) :
    cs = c :: r := by
  cases cs with
  | nil => simp [scanLit] at h
  | cons x xs =>
    simp only [scanLit] at h
    by_cases hx : x = c
    · subst hx
      simp at h
      rw [h]
    · rw [if_neg hx] at h
      simp at h

lemma optionBindEq {α β : Type} (o : Option α) (f : α → Option β) :
    o >>= f = o.bind f := rfl

lemma head_rest_nondigit {c0 : Char} (h0 : c0.isDigit = false) (r : List Char) :
    ∀ c, (c0 :: r).head? = some c → c.isDigit = false := by
  intro c hc
  rw [List.head?_cons, Option.some.injEq] at hc
  rw [← hc]
  exact h0

/-! ## Claims C6, C7 -/

/-- C6 counterexample: `sscanf` ignores input after the sixth conversion, so
`str2MEpoch` succeeds on `"2020-01-01-00:00:00.0x"` even though the string
deviates from the six-field pattern `YYYY-MM-DD-HH:MM:SS.s`; the claimed
"succeeds exactly when the string conforms" is false. -/
theorem str2MEpoch_counterexample :
    specTimestamp "2020-01-01-00:00:00.0x" = false ∧
    (str2MEpoch (fun _ _ _ _ _ ss => ss) "2020-01-01-00:00:00.0x" 0).isOk = true :=
  ⟨by decide, by rfl⟩

/-- C6 amended: `str2MEpoch` succeeds on every string conforming to the
six-field pattern `YYYY-MM-DD-HH:MM:SS.s`, and raises the parse
`std::runtime_error` when six fields cannot be scanned (e.g. on
`"not-a-date"`); but it also accepts scanf-liberal deviations — trailing
characters after the sixth field are ignored (see the counterexample), signs
and interior whitespace are tolerated and field widths are not enforced. -/
theorem str2MEpoch_amended (mk : Int → Int → Int → Int → Int → ℚ → ℚ)
    (s : String) (off : ℚ) (h : specTimestamp s = true) :
    (∃ v, str2MEpoch mk s off = Except.ok v) ∧
    str2MEpoch mk "not-a-date" off =
      Except.error (MsError.runtimeError "Invalid String enountered in str2MEpoch()") := by
  refine ⟨?_, rfl⟩
  rw [specTimestamp] at h
  obtain ⟨r1, h1⟩ : ∃ r, takeDigitsExact 4 s.data = some r := by
    cases hx : takeDigitsExact 4 s.data with
    | none => rw [hx] at h; simp at h
    | some r => exact ⟨r, rfl⟩
  rw [h1] at h; simp only [optionBindEq, Option.some_bind] at h
  obtain ⟨r2, h2⟩ : ∃ r, scanLit '-' r1 = some r := by
    cases hx : scanLit '-' r1 with
    | none => rw [hx] at h; simp at h
    | some r => exact ⟨r, rfl⟩
  rw [h2] at h; simp only [optionBindEq, Option.some_bind] at h
  obtain ⟨r3, h3⟩ : ∃ r, takeDigitsExact 2 r2 = some r := by
    cases hx : takeDigitsExact 2 r2 with
    | none => rw [hx] at h; simp at h
    | some r => exact ⟨r, rfl⟩
  rw [h3] at h; simp only [optionBindEq, Option.some_bind] at h
  obtain ⟨r4, h4⟩ : ∃ r, scanLit '-' r3 = some r := by
    cases hx : scanLit '-' r3 with
    | none => rw [hx] at h; simp at h
    | some r => exact ⟨r, rfl⟩
  rw [h4] at h; simp only [optionBindEq, Option.some_bind] at h
  obtain ⟨r5, h5⟩ : ∃ r, takeDigitsExact 2 r4 = some r := by
    cases hx : takeDigitsExact 2 r4 with
    | none => rw [hx] at h; simp at h
    | some r => exact ⟨r, rfl⟩
  rw [h5] at h; simp only [optionBindEq, Option.some_bind] at h
  obtain ⟨r6, h6⟩ : ∃ r, scanLit '-' r5 = some r := by
    cases hx : scanLit '-' r5 with
    | none => rw [hx] at h; simp at h
    | some r => exact ⟨r, rfl⟩
  rw [h6] at h; simp only [optionBindEq, Option.some_bind] at h
  obtain ⟨r7, h7⟩ : ∃ r, takeDigitsExact 2 r6 = some r := by
    cases hx : takeDigitsExact 2 r6 with
    | none => rw [hx] at h; simp at h
    | some r => exact ⟨r, rfl⟩
  rw [h7] at h; simp only [optionBindEq, Option.some_bind] at h
  obtain ⟨r8, h8⟩ : ∃ r, scanLit ':' r7 = some r := by
    cases hx : scanLit ':' r7 with
    | none => rw [hx] at h; simp at h
    | some r => exact ⟨r, rfl⟩
  rw [h8] at h; simp only [optionBindEq, Option.some_bind] at h
  obtain ⟨r9, h9⟩ : ∃ r, takeDigitsExact 2 r8 = some r := by
    cases hx : takeDigitsExact 2 r8 with
    | none => rw [hx] at h; simp at h
    | some r => exact ⟨r, rfl⟩
  rw [h9] at h; simp only [optionBindEq, Option.some_bind] at h
  obtain ⟨r10, h10⟩ : ∃ r, scanLit ':' r9 = some r := by
    cases hx : scanLit ':' r9 with
    | none => rw [hx] at h; simp at h
    | some r => exact ⟨r, rfl⟩
  rw [h10] at h; simp only [optionBindEq, Option.some_bind] at h
  obtain ⟨r11, h11⟩ : ∃ r, takeDigitsExact 2 r10 = some r := by
    cases hx : takeDigitsExact 2 r10 with
    | none => rw [hx] at h; simp at h
    | some r => exact ⟨r, rfl⟩
  rw [h11] at h; simp only [optionBindEq, Option.some_bind] at h
  obtain ⟨r12, h12⟩ : ∃ r, scanLit '.' r11 = some r := by
    cases hx : scanLit '.' r11 with
    | none => rw [hx] at h; simp at h
    | some r => exact ⟨r, rfl⟩
  obtain ⟨ds1, hs1, hl1, hdig1⟩ := takeDigitsExact_some h1
  have hr1 : r1 = '-' :: r2 := scanLit_some h2
  obtain ⟨ds2, hs2, hl2, hdig2⟩ := takeDigitsExact_some h3
  have hr3 : r3 = '-' :: r4 := scanLit_some h4
  obtain ⟨ds3, hs3, hl3, hdig3⟩ := takeDigitsExact_some h5
  have hr5 : r5 = '-' :: r6 := scanLit_some h6
  obtain ⟨ds4, hs4, hl4, hdig4⟩ := takeDigitsExact_some h7
  have hr7 : r7 = ':' :: r8 := scanLit_some h8
  obtain ⟨ds5, hs5, hl5, hdig5⟩ := takeDigitsExact_some h9
  have hr9 : r9 = ':' :: r10 := scanLit_some h10
  obtain ⟨ds6, hs6, hl6, hdig6⟩ := takeDigitsExact_some h11
  have hr11 : r11 = '.' :: r12 := scanLit_some h12
  have hne1 : ds1 ≠ [] := by intro hnil; rw [hnil] at hl1; simp at hl1
  have hne2 : ds2 ≠ [] := by intro hnil; rw [hnil] at hl2; simp at hl2
  have hne3 : ds3 ≠ [] := by intro hnil; rw [hnil] at hl3; simp at hl3
  have hne4 : ds4 ≠ [] := by intro hnil; rw [hnil] at hl4; simp at hl4
  have hne5 : ds5 ≠ [] := by intro hnil; rw [hnil] at hl5; simp at hl5
  have hne6 : ds6 ≠ [] := by intro hnil; rw [hnil] at hl6; simp at hl6
  have e1 : scanInt s.data = some ((digitsToNat ds1 : Int), '-' :: r2) := by
    rw [hs1, hr1]
    exact scanInt_digits hne1 hdig1 (head_rest_nondigit (by decide) r2)
  have e3 : scanInt r2 = some ((digitsToNat ds2 : Int), '-' :: r4) := by
    rw [hs2, hr3]
    exact scanInt_digits hne2 hdig2 (head_rest_nondigit (by decide) r4)
  have e5 : scanInt r4 = some ((digitsToNat ds3 : Int), '-' :: r6) := by
    rw [hs3, hr5]
    exact scanInt_digits hne3 hdig3 (head_rest_nondigit (by decide) r6)
  have e7 : scanInt r6 = some ((digitsToNat ds4 : Int), ':' :: r8) := by
    rw [hs4, hr7]
    exact scanInt_digits hne4 hdig4 (head_rest_nondigit (by decide) r8)
  have e9 : scanInt r8 = some ((digitsToNat ds5 : Int), ':' :: r10) := by
    rw [hs5, hr9]
    exact scanInt_digits hne5 hdig5 (head_rest_nondigit (by decide) r10)
  obtain ⟨v6, rr, e11⟩ : ∃ v r, scanDouble r10 = some (v, r) := by
    rw [hs6, hr11]
    exact scanDouble_digits hne6 hdig6
  have hscan : scanTime s.data =
      some ((digitsToNat ds1 : Int), (digitsToNat ds2 : Int), (digitsToNat ds3 : Int),
        (digitsToNat ds4 : Int), (digitsToNat ds5 : Int), v6) := by
    simp only [scanTime, e1, e3, e5, e7, e9, e11, scanLit_cons, optionBindEq, Option.some_bind]
    rfl
  exact ⟨mk (digitsToNat ds1) (digitsToNat ds2) (digitsToNat ds3) (digitsToNat ds4)
      (digitsToNat ds5) v6 + off,
    by simp only [str2MEpoch, hscan]⟩

/-- Witness for `str2MEpoch_amended` at the spec's own example timestamp. -/
theorem str2MEpoch_amended_witness :
    specTimestamp "2020-01-01-00:00:00.0" = true ∧
    ((∃ v, str2MEpoch (fun _ _ _ _ _ ss => ss) "2020-01-01-00:00:00.0" 0 = Except.ok v) ∧
     str2MEpoch (fun _ _ _ _ _ ss => ss) "not-a-date" 0 =
       Except.error (MsError.runtimeError "Invalid String enountered in str2MEpoch()")) :=
  ⟨by decide,
   str2MEpoch_amended (fun _ _ _ _ _ ss => ss) "2020-01-01-00:00:00.0" 0 (by decide)⟩

/-- C7: whenever the zero-offset parse of a timestamp succeeds with epoch `e`,
the parse with offset `d` succeeds with epoch exactly `e + d` (the offset is
added in seconds to the parsed instant); in particular offset 3600 yields an
instant exactly one hour later. -/
theorem str2MEpoch_offset (mk : Int → Int → Int → Int → Int → ℚ → ℚ)
    (t : String) (d e : ℚ) (h : str2MEpoch mk t 0 = Except.ok e) :
    str2MEpoch mk t d = Except.ok (e + d) := by
  cases hscan : scanTime t.data with
  | none =>
    rw [str2MEpoch, hscan] at h
    exact absurd h (by simp)
  | some v =>
    obtain ⟨yy, mo, dd, hh, mi, ss⟩ := v
    rw [str2MEpoch, hscan] at h
    rw [str2MEpoch, hscan]
    simp only [Except.ok.injEq] at h ⊢
    rw [← h]
    ring

/-- Witness for `str2MEpoch_offset`: offset 3600 shifts the parsed instant by
exactly one hour. -/
theorem str2MEpoch_offset_witness :
    str2MEpoch (fun _ _ _ _ _ _ => (0:ℚ)) "2020-01-01-00:00:00.0" 0 = Except.ok (0 + 0) ∧
    str2MEpoch (fun _ _ _ _ _ _ => (0:ℚ)) "2020-01-01-00:00:00.0" 3600 =
      Except.ok ((0 + 0) + 3600) := by
  obtain ⟨p, hp⟩ : ∃ p, scanTime ("2020-01-01-00:00:00.0".data) = some p := by
    have hT : (scanTime ("2020-01-01-00:00:00.0".data)).isSome = true := by decide
    cases hx : scanTime ("2020-01-01-00:00:00.0".data) with
    | none => rw [hx] at hT; simp at hT
    | some p => exact ⟨p, rfl⟩
  obtain ⟨yy, mo, dd, hh, mi, ss⟩ := p
  have h0 : str2MEpoch (fun _ _ _ _ _ _ => (0:ℚ)) "2020-01-01-00:00:00.0" 0 =
      Except.ok (0 + 0) := by
    rw [str2MEpoch, hp]
  exact ⟨h0, str2MEpoch_offset (fun _ _ _ _ _ _ => (0:ℚ)) "2020-01-01-00:00:00.0" 3600
    (0 + 0) h0⟩

end MsFuncs
